import Mathlib

/-!
Verification of the `ml_math` incremental statistics library (`src/lib.rs`).

The library provides two streaming accumulators:

* `MeanIncrementor` — a running arithmetic mean with a `u32` count;
* `VarianceIncrementor` — a running variance built on an owned `MeanIncrementor`.

We embed the floating-point arithmetic over `ℚ` (the claims are stated
"in exact arithmetic / within floating-point rounding") and the `u32`
count over `ℕ`.  Two auxiliary models are faithful to the `u32` width of
the count: a wrapping model (release-mode two's-complement wrap of
`count += 1`) and a checked model (debug-mode overflow check, modelled
as `Option`).
-/

/-- Embeds `struct MeanIncrementor { mean: f64, count: u32 }`
(`src/lib.rs` lines 18–22), with `f64` as `ℚ` and `u32` as `ℕ`. -/
structure MeanIncrementor where
  mean : ℚ
  count : ℕ
deriving DecidableEq, Repr

/-- `MeanIncrementor::new` (lines 25–27): the zero state. -/
def MeanIncrementor.new : MeanIncrementor :=
  { mean := 0, count := 0 }

/-- `MeanIncrementor::add` (lines 30–39): if no value was seen, the mean
is the value; otherwise blend the old mean and the value with weight
`1 / (count + 1)` on the value; then increment the count. -/
def MeanIncrementor.add (s : MeanIncrementor) (value : ℚ) : MeanIncrementor :=
  let newMean :=
    if s.count = 0 then
      value
    else
      let weight_per_value := 1 / ((s.count + 1 : ℕ) : ℚ)
      s.mean * (1 - weight_per_value) + value * weight_per_value
  { mean := newMean, count := s.count + 1 }

/-- Folding `MeanIncrementor::add` over a list of values, one at a time. -/
def MeanIncrementor.addList (s : MeanIncrementor) (l : List ℚ) : MeanIncrementor :=
  l.foldl MeanIncrementor.add s

/-- Embeds `struct VarianceIncrementor { variance: f64, mean_incrementor: MeanIncrementor }`
(lines 78–82). -/
structure VarianceIncrementor where
  variance : ℚ
  mean_incrementor : MeanIncrementor
deriving DecidableEq, Repr

/-- `VarianceIncrementor::new` (lines 85–87). -/
def VarianceIncrementor.new : VarianceIncrementor :=
  { variance := 0, mean_incrementor := MeanIncrementor.new }

/-- `VarianceIncrementor::add` (lines 89–99): capture the pre-update count
`n` and mean `previous_mean`, update the owned mean accumulator, then set
`variance := 0` if `n == 0`, else
`variance := (n-1)/n * variance + (value - previous_mean)^2 / (n+1)`.
The subtraction `n - 1` is the `u32` (truncated) subtraction of the source,
taken in the branch where `n ≠ 0`. -/
def VarianceIncrementor.add (s : VarianceIncrementor) (value : ℚ) : VarianceIncrementor :=
  let n := s.mean_incrementor.count
  let previous_mean := s.mean_incrementor.mean
  let mi := s.mean_incrementor.add value
  { variance :=
      if n = 0 then
        0
      else
        ((n - 1 : ℕ) : ℚ) / (n : ℚ) * s.variance +
          (value - previous_mean) ^ 2 / ((n + 1 : ℕ) : ℚ),
    mean_incrementor := mi }

/-- Folding `VarianceIncrementor::add` over a list of values. -/
def VarianceIncrementor.addList (s : VarianceIncrementor) (l : List ℚ) : VarianceIncrementor :=
  l.foldl VarianceIncrementor.add s

/-- `VarianceIncrementor::mean` (lines 105–107): delegates to the owned
mean accumulator. -/
def VarianceIncrementor.mean (s : VarianceIncrementor) : ℚ :=
  s.mean_incrementor.mean

/-- `VarianceIncrementor::count` (lines 109–111): delegates to the owned
mean accumulator. -/
def VarianceIncrementor.count (s : VarianceIncrementor) : ℕ :=
  s.mean_incrementor.count

/-- Modelled from the spec: the batch arithmetic mean of a list of values. -/
def batchMean (l : List ℚ) : ℚ :=
  l.sum / (l.length : ℚ)

/-- Modelled from the spec: the biased (population, divide-by-n) variance
of a list of values. -/
def popVariance (l : List ℚ) : ℚ :=
  (l.map (fun v => (v - batchMean l) ^ 2)).sum / (l.length : ℚ)

/-- The unbiased sample (divide-by-(n-1), Bessel-corrected) variance of a
list of values. -/
def sampleVariance (l : List ℚ) : ℚ :=
  (l.map (fun v => (v - batchMean l) ^ 2)).sum / ((l.length : ℚ) - 1)

/-- Sum of squares of a list, used in the closed form of the variance
accumulator. -/
def sumSq (l : List ℚ) : ℚ :=
  (l.map (fun v => v ^ 2)).sum

/-! ### Basic fold lemmas -/

theorem MeanIncrementor.addList_nil (s : MeanIncrementor) :
    s.addList [] = s := rfl

theorem meanIncr_addList_append (s : MeanIncrementor)
    (l : List ℚ) (v : ℚ) :
    s.addList (l ++ [v]) = (s.addList l).add v := by
  simp [MeanIncrementor.addList, List.foldl_append]

theorem varIncr_addList_append (s : VarianceIncrementor)
    (l : List ℚ) (v : ℚ) :
    s.addList (l ++ [v]) = (s.addList l).add v := by
  simp [VarianceIncrementor.addList, List.foldl_append]

theorem meanIncr_count_addList (s : MeanIncrementor) (l : List ℚ) :
    (s.addList l).count = s.count + l.length := by
  induction l generalizing s with
  | nil => simp [MeanIncrementor.addList]
  | cons v t ih =>
    have : s.addList (v :: t) = (s.add v).addList t := rfl
    rw [this, ih]
    simp [MeanIncrementor.add]
    omega

theorem varIncr_mi_addList (s : VarianceIncrementor) (l : List ℚ) :
    (s.addList l).mean_incrementor = s.mean_incrementor.addList l := by
  induction l generalizing s with
  | nil => rfl
  | cons v t ih =>
    have h1 : s.addList (v :: t) = (s.add v).addList t := rfl
    have h2 : s.mean_incrementor.addList (v :: t)
        = (s.mean_incrementor.add v).addList t := rfl
    rw [h1, h2, ih]
    rfl

/-! ### Closed form of the running mean -/

theorem MeanIncrementor.mean_addList_new (l : List ℚ) :
    (MeanIncrementor.new.addList l).mean = l.sum / (l.length : ℚ) := by
  induction l using List.reverseRecOn with
  | nil => simp [MeanIncrementor.addList, MeanIncrementor.new]
  | append_singleton l v ih =>
    rw [meanIncr_addList_append]
    have hc : (MeanIncrementor.new.addList l).count = l.length := by
      simp [meanIncr_count_addList, MeanIncrementor.new]
    rcases Nat.eq_zero_or_pos l.length with h | h
    · obtain rfl : l = [] := List.eq_nil_of_length_eq_zero h
      simp [MeanIncrementor.addList, MeanIncrementor.new, MeanIncrementor.add]
    · have hn : l.length ≠ 0 := Nat.pos_iff_ne_zero.mp h
      have hq : ((l.length : ℚ)) ≠ 0 := Nat.cast_ne_zero.mpr hn
      have hq1 : ((l.length : ℚ)) + 1 ≠ 0 := by positivity
      rw [MeanIncrementor.add]
      simp only [hc, hn, if_false, ih]
      push_cast
      field_simp

/-! ### Sum-of-squared-deviations algebra -/

theorem sumSq_append_singleton (l : List ℚ) (v : ℚ) :
    sumSq (l ++ [v]) = sumSq l + v ^ 2 := by
  simp [sumSq]

theorem sum_sq_dev (m : ℚ) (l : List ℚ) :
    (l.map (fun x => (x - m) ^ 2)).sum
      = sumSq l - 2 * m * l.sum + (l.length : ℚ) * m ^ 2 := by
  induction l with
  | nil => simp [sumSq]
  | cons v t ih =>
    simp only [List.map_cons, List.sum_cons, sumSq, List.length_cons] at ih ⊢
    rw [ih]
    push_cast
    ring

theorem sum_sq_dev_batchMean (l : List ℚ) (h : l.length ≠ 0) :
    (l.map (fun x => (x - batchMean l) ^ 2)).sum
      = sumSq l - l.sum ^ 2 / (l.length : ℚ) := by
  have hq : ((l.length : ℚ)) ≠ 0 := Nat.cast_ne_zero.mpr h
  rw [sum_sq_dev, batchMean]
  field_simp
  ring

/-! ### Closed form of the running variance -/

theorem VarianceIncrementor.variance_addList_new (l : List ℚ) :
    (VarianceIncrementor.new.addList l).variance
      = (sumSq l - l.sum ^ 2 / (l.length : ℚ)) / ((l.length : ℚ) - 1) := by
  induction l using List.reverseRecOn with
  | nil =>
    simp [VarianceIncrementor.addList, VarianceIncrementor.new, sumSq]
  | append_singleton l v ih =>
    rw [varIncr_addList_append]
    have hmi : (VarianceIncrementor.new.addList l).mean_incrementor
        = MeanIncrementor.new.addList l :=
      varIncr_mi_addList VarianceIncrementor.new l
    have hc : (VarianceIncrementor.new.addList l).mean_incrementor.count = l.length := by
      rw [hmi]
      simp [meanIncr_count_addList, MeanIncrementor.new]
    have hm : (VarianceIncrementor.new.addList l).mean_incrementor.mean
        = l.sum / (l.length : ℚ) := by
      rw [hmi, MeanIncrementor.mean_addList_new]
    simp only [VarianceIncrementor.add, hc, hm, sumSq_append_singleton,
      List.sum_append, List.length_append, List.sum_cons, List.sum_nil,
      List.length_cons, List.length_nil]
    by_cases h0 : l.length = 0
    · obtain rfl : l = [] := List.eq_nil_of_length_eq_zero h0
      norm_num
    · rw [if_neg h0]
      by_cases h1 : l.length = 1
      · obtain ⟨a, rfl⟩ := List.length_eq_one.mp h1
        rw [ih]
        norm_num [sumSq]
        ring
      · have h2 : 2 ≤ l.length := by omega
        have hq : ((l.length : ℚ)) ≠ 0 := Nat.cast_ne_zero.mpr h0
        have hq1 : ((l.length : ℚ)) - 1 ≠ 0 := by
          have : (1 : ℚ) < (l.length : ℚ) := by exact_mod_cast h2
          intro hcontra
          nlinarith
        have hq2 : ((l.length : ℚ)) + 1 ≠ 0 := by positivity
        have hsub : (((l.length - 1 : ℕ)) : ℚ) = (l.length : ℚ) - 1 := by
          have : 1 ≤ l.length := by omega
          push_cast [this]
          ring
        rw [ih]
        push_cast [hsub]
        field_simp
        ring

/-! ### u32-faithful models of the count

The source stores `count: u32` and does `self.count += 1`.  In a release
build this wraps modulo `2^32`; in a debug build the overflow check fires.
`MeanIncrementorW` / `VarianceIncrementorW` model the wrapping semantics;
`MeanIncrementor.addChecked` / `VarianceIncrementor.addChecked` model the
checked semantics, returning `none` exactly when `count += 1` would
overflow `u32` or `n - 1` would underflow. -/

def u32Mod : ℕ := 2 ^ 32

/-- Wrapping model of `MeanIncrementor`: `count` is a `u32` value
(`count < 2^32` for reachable states) and `count += 1` wraps. -/
structure MeanIncrementorW where
  mean : ℚ
  count : ℕ
deriving DecidableEq, Repr

def MeanIncrementorW.new : MeanIncrementorW :=
  { mean := 0, count := 0 }

/-- `MeanIncrementor::add` with the `u32` wrap of `count + 1` made
explicit (both in the weight denominator and in the stored count). -/
def MeanIncrementorW.add (s : MeanIncrementorW) (value : ℚ) : MeanIncrementorW :=
  let newMean :=
    if s.count = 0 then
      value
    else
      let weight_per_value := 1 / (((s.count + 1) % u32Mod : ℕ) : ℚ)
      s.mean * (1 - weight_per_value) + value * weight_per_value
  { mean := newMean, count := (s.count + 1) % u32Mod }

def MeanIncrementorW.addList (s : MeanIncrementorW) (l : List ℚ) : MeanIncrementorW :=
  l.foldl MeanIncrementorW.add s

/-- Wrapping model of `VarianceIncrementor`. -/
structure VarianceIncrementorW where
  variance : ℚ
  mean_incrementor : MeanIncrementorW
deriving DecidableEq, Repr

def VarianceIncrementorW.new : VarianceIncrementorW :=
  { variance := 0, mean_incrementor := MeanIncrementorW.new }

def VarianceIncrementorW.add (s : VarianceIncrementorW) (value : ℚ) : VarianceIncrementorW :=
  let n := s.mean_incrementor.count
  let previous_mean := s.mean_incrementor.mean
  let mi := s.mean_incrementor.add value
  { variance :=
      if n = 0 then
        0
      else
        ((n - 1 : ℕ) : ℚ) / (n : ℚ) * s.variance +
          (value - previous_mean) ^ 2 / ((((n + 1) % u32Mod : ℕ)) : ℚ),
    mean_incrementor := mi }

def VarianceIncrementorW.addList (s : VarianceIncrementorW) (l : List ℚ) : VarianceIncrementorW :=
  l.foldl VarianceIncrementorW.add s

def VarianceIncrementorW.count (s : VarianceIncrementorW) : ℕ :=
  s.mean_incrementor.count

theorem meanIncrW_count_addList (l : List ℚ) (s : MeanIncrementorW)
    (hs : s.count < u32Mod) :
    (s.addList l).count = (s.count + l.length) % u32Mod := by
  induction l generalizing s with
  | nil =>
    have : s.addList [] = s := rfl
    rw [this, Nat.mod_eq_of_lt]
    · simp
    · simpa using hs
  | cons v t ih =>
    have hstep : s.addList (v :: t) = (s.add v).addList t := rfl
    have hcount : (s.add v).count = (s.count + 1) % u32Mod := rfl
    have hm : 0 < u32Mod := by norm_num [u32Mod]
    rw [hstep, ih (s.add v) (by rw [hcount]; exact Nat.mod_lt _ hm), hcount,
      List.length_cons, Nat.mod_add_mod]
    congr 1
    omega

theorem varIncrW_mi_addList (s : VarianceIncrementorW) (l : List ℚ) :
    (s.addList l).mean_incrementor = s.mean_incrementor.addList l := by
  induction l generalizing s with
  | nil => rfl
  | cons v t ih =>
    have h1 : s.addList (v :: t) = (s.add v).addList t := rfl
    have h2 : s.mean_incrementor.addList (v :: t)
        = (s.mean_incrementor.add v).addList t := rfl
    rw [h1, h2, ih]
    rfl

/-- The `u32` overflow check of `count += 1`: succeeds exactly when the
incremented count still fits in a `u32`. -/
def checkedSuccU32 (a : ℕ) : Option ℕ :=
  if a + 1 < u32Mod then some (a + 1) else none

/-- The `u32` underflow check of `a - b`. -/
def checkedSubU32 (a b : ℕ) : Option ℕ :=
  if b ≤ a then some (a - b) else none

/-- Debug-mode `MeanIncrementor::add`: identical to `add`, except that the
overflow check on `count += 1` is explicit; `none` models the panic. -/
def MeanIncrementor.addChecked (s : MeanIncrementor) (value : ℚ) : Option MeanIncrementor :=
  (checkedSuccU32 s.count).map fun _ => s.add value

/-- Sequential debug-mode additions; `none` as soon as one add panics. -/
def MeanIncrementor.addListChecked (s : MeanIncrementor) : List ℚ → Option MeanIncrementor
  | [] => some s
  | v :: t => (s.addChecked v).bind fun s2 => s2.addListChecked t

/-- Debug-mode `VarianceIncrementor::add`: first the owned mean update (with
its overflow check), then — in the `n ≠ 0` branch — the underflow check of
the `u32` subtraction `n - 1`; on success the result is that of `add`. -/
def VarianceIncrementor.addChecked (s : VarianceIncrementor) (value : ℚ) :
    Option VarianceIncrementor :=
  (s.mean_incrementor.addChecked value).bind fun _ =>
    if s.mean_incrementor.count = 0 then
      some (s.add value)
    else
      (checkedSubU32 s.mean_incrementor.count 1).map fun _ => s.add value

def VarianceIncrementor.addListChecked (s : VarianceIncrementor) :
    List ℚ → Option VarianceIncrementor
  | [] => some s
  | v :: t => (s.addChecked v).bind fun s2 => s2.addListChecked t

theorem meanIncr_addChecked_eq (s : MeanIncrementor) (v : ℚ)
    (h : s.count + 1 < u32Mod) :
    s.addChecked v = some (s.add v) := by
  simp [MeanIncrementor.addChecked, checkedSuccU32, h]

theorem meanIncr_addListChecked_eq (l : List ℚ) (s : MeanIncrementor)
    (h : s.count + l.length < u32Mod) :
    s.addListChecked l = some (s.addList l) := by
  induction l generalizing s with
  | nil => rfl
  | cons v t ih =>
    have h1 : s.count + 1 < u32Mod := by
      simp [List.length_cons] at h
      omega
    have hcnt : (s.add v).count = s.count + 1 := rfl
    rw [MeanIncrementor.addListChecked, meanIncr_addChecked_eq s v h1,
      Option.some_bind]
    have h2 : (s.add v).count + t.length < u32Mod := by
      rw [hcnt]
      simp [List.length_cons] at h
      omega
    exact ih (s.add v) h2

theorem meanIncr_addListChecked_none (l : List ℚ) (s : MeanIncrementor)
    (hs : s.count < u32Mod) (h : u32Mod ≤ s.count + l.length) :
    s.addListChecked l = none := by
  induction l generalizing s with
  | nil =>
    exfalso
    simp at h
    omega
  | cons v t ih =>
    by_cases h1 : s.count + 1 < u32Mod
    · have hcnt : (s.add v).count = s.count + 1 := rfl
      rw [MeanIncrementor.addListChecked, meanIncr_addChecked_eq s v h1,
        Option.some_bind]
      refine ih (s.add v) (by rw [hcnt]; omega) ?_
      rw [hcnt]
      simp [List.length_cons] at h
      omega
    · rw [MeanIncrementor.addListChecked]
      have : s.addChecked v = none := by
        simp [MeanIncrementor.addChecked, checkedSuccU32, h1]
      rw [this, Option.none_bind]

theorem varIncr_addChecked_eq (s : VarianceIncrementor) (v : ℚ)
    (h : s.mean_incrementor.count + 1 < u32Mod) :
    s.addChecked v = some (s.add v) := by
  rw [VarianceIncrementor.addChecked, meanIncr_addChecked_eq _ _ h,
    Option.some_bind]
  by_cases h0 : s.mean_incrementor.count = 0
  · simp [h0]
  · simp [h0, checkedSubU32, Nat.one_le_iff_ne_zero.mpr h0]

theorem varIncr_addListChecked_eq (l : List ℚ) (s : VarianceIncrementor)
    (h : s.mean_incrementor.count + l.length < u32Mod) :
    s.addListChecked l = some (s.addList l) := by
  induction l generalizing s with
  | nil => rfl
  | cons v t ih =>
    have h1 : s.mean_incrementor.count + 1 < u32Mod := by
      simp [List.length_cons] at h
      omega
    have hcnt : (s.add v).mean_incrementor.count = s.mean_incrementor.count + 1 := rfl
    rw [VarianceIncrementor.addListChecked, varIncr_addChecked_eq s v h1,
      Option.some_bind]
    refine ih (s.add v) ?_
    rw [hcnt]
    simp [List.length_cons] at h
    omega

theorem varIncr_addListChecked_none (l : List ℚ) (s : VarianceIncrementor)
    (hs : s.mean_incrementor.count < u32Mod)
    (h : u32Mod ≤ s.mean_incrementor.count + l.length) :
    s.addListChecked l = none := by
  induction l generalizing s with
  | nil =>
    exfalso
    simp at h
    omega
  | cons v t ih =>
    by_cases h1 : s.mean_incrementor.count + 1 < u32Mod
    · have hcnt : (s.add v).mean_incrementor.count = s.mean_incrementor.count + 1 := rfl
      rw [VarianceIncrementor.addListChecked, varIncr_addChecked_eq s v h1,
        Option.some_bind]
      refine ih (s.add v) (by rw [hcnt]; omega) ?_
      rw [hcnt]
      simp [List.length_cons] at h
      omega
    · rw [VarianceIncrementor.addListChecked]
      have hmean : s.mean_incrementor.addChecked v = none := by
        simp [MeanIncrementor.addChecked, checkedSuccU32, h1]
      rw [VarianceIncrementor.addChecked, hmean, Option.none_bind, Option.none_bind]

/-- The running variance equals the batch sample (divide-by-(n-1))
variance for two or more values, and `0` for at most one value. -/
theorem variance_addList_sample (l : List ℚ) :
    (VarianceIncrementor.new.addList l).variance =
      if l.length ≤ 1 then 0 else sampleVariance l := by
  rw [VarianceIncrementor.variance_addList_new]
  by_cases h : l.length ≤ 1
  · rw [if_pos h]
    rcases l with _ | ⟨a, t⟩
    · norm_num [sumSq]
    · have ht : t = [] := by
        simp [List.length_cons] at h
        exact h
      subst ht
      norm_num [sumSq]
  · rw [if_neg h, sampleVariance, sum_sq_dev_batchMean l (by omega)]

/-! ### Claim theorems -/

/-- Claim C1, counterexample: the claim says `variance()` is the biased
population (divide-by-n) variance of all values added so far; but after
adding `0, 1` the code yields `1/2` while the population variance of
`{0, 1}` is `1/4`. -/
theorem c1_counterexample :
    (VarianceIncrementor.new.addList [0, 1]).variance ≠ popVariance [0, 1] := by
  have h1 : (VarianceIncrementor.new.addList [0, 1]).variance = 1 / 2 := by
    norm_num [VarianceIncrementor.addList, VarianceIncrementor.add, VarianceIncrementor.new,
      MeanIncrementor.add, MeanIncrementor.new, List.foldl]
  have h2 : popVariance [0, 1] = 1 / 4 := by
    norm_num [popVariance, batchMean]
  rw [h1, h2]
  norm_num

/-- Claim C1, amended: for every finite sequence of values added one at a
time, `variance()` equals the unbiased sample (divide-by-(n-1)) variance of
the values added so far when at least two values were added, and `0` when
at most one value was added. -/
theorem c1_amended_variance_is_sample (l : List ℚ) :
    (VarianceIncrementor.new.addList l).variance =
      if l.length ≤ 1 then 0 else sampleVariance l :=
  variance_addList_sample l

/-- Claim C2: for every finite sequence of values added one at a time,
`MeanIncrementor.mean()` equals the arithmetic mean of all values added so
far (exact arithmetic; the empty case gives `0 = 0/0` under the `ℚ`
convention `x / 0 = 0`). -/
theorem c2_mean_is_arithmetic_mean (l : List ℚ) :
    (MeanIncrementor.new.addList l).mean = batchMean l := by
  rw [batchMean]
  exact MeanIncrementor.mean_addList_new l

/-- Claim C3: `VarianceIncrementor::add` updates the owned mean accumulator
with the value, and sets `variance` to
`(n-1)/n * variance_old + (value - previous_mean)^2 / (n+1)` where `n` and
`previous_mean` are the count and mean captured before the mean update,
or to `0` when `n = 0`. -/
theorem c3_add_recurrence (s : VarianceIncrementor) (v : ℚ) :
    (s.add v).mean_incrementor = s.mean_incrementor.add v ∧
    (s.add v).variance =
      (if s.mean_incrementor.count = 0 then 0
       else ((s.mean_incrementor.count : ℚ) - 1) / (s.mean_incrementor.count : ℚ)
              * s.variance
            + (v - s.mean_incrementor.mean) ^ 2 / ((s.mean_incrementor.count : ℚ) + 1)) := by
  refine ⟨rfl, ?_⟩
  simp only [VarianceIncrementor.add]
  by_cases h0 : s.mean_incrementor.count = 0
  · simp [h0]
  · rw [if_neg h0, if_neg h0]
    have h1 : 1 ≤ s.mean_incrementor.count := Nat.one_le_iff_ne_zero.mpr h0
    push_cast [h1]
    ring

/-- Claim C4: adding `0` then `1` to a fresh `VarianceIncrementor` yields
`mean = 1/2` and `variance = 1/2`; additionally adding `2` yields
`mean = 1` and `variance = 1`, exactly. -/
theorem c4_scenario_values :
    (VarianceIncrementor.new.addList [0, 1]).mean = 1 / 2 ∧
    (VarianceIncrementor.new.addList [0, 1]).variance = 1 / 2 ∧
    (VarianceIncrementor.new.addList [0, 1, 2]).mean = 1 ∧
    (VarianceIncrementor.new.addList [0, 1, 2]).variance = 1 := by
  refine ⟨?_, ?_, ?_, ?_⟩ <;>
    norm_num [VarianceIncrementor.addList, VarianceIncrementor.add, VarianceIncrementor.new,
      VarianceIncrementor.mean, MeanIncrementor.add, MeanIncrementor.new, List.foldl]

/-- Claim C5, counterexample: the claim says `count()` equals the number of
add calls for every number of calls; but `count` is a `u32`, and after
`2^32` adds (wrapping semantics of release builds) `count()` returns `0`,
not `2^32`. -/
theorem c5_counterexample :
    (MeanIncrementorW.new.addList (List.replicate u32Mod (0 : ℚ))).count ≠ u32Mod := by
  rw [meanIncrW_count_addList _ _ (by norm_num [MeanIncrementorW.new, u32Mod])]
  simp [MeanIncrementorW.new, List.length_replicate]
  norm_num [u32Mod]

/-- Claim C5, amended: `count()` on both types returns exactly `k` after
`k` calls to `add`, for every `k < 2^32` (including zero); at `2^32` calls
the `u32` count wraps (release) or the increment overflows (debug). -/
theorem c5_amended_count (l : List ℚ) (h : l.length < u32Mod) :
    (MeanIncrementorW.new.addList l).count = l.length ∧
    (VarianceIncrementorW.new.addList l).count = l.length := by
  have hm : ∀ s : MeanIncrementorW, s = MeanIncrementorW.new →
      (s.addList l).count = l.length := by
    intro s hs
    subst hs
    rw [meanIncrW_count_addList _ _ (by norm_num [MeanIncrementorW.new, u32Mod])]
    show (0 + l.length) % u32Mod = l.length
    rw [Nat.zero_add]
    exact Nat.mod_eq_of_lt h
  refine ⟨hm _ rfl, ?_⟩
  rw [VarianceIncrementorW.count, varIncrW_mi_addList]
  exact hm _ rfl

/-- Witness for the amended claim C5 at the concrete two-element input
`[5, 7]`. -/
theorem c5_amended_witness :
    (MeanIncrementorW.new.addList [5, 7]).count = 2 ∧
    (VarianceIncrementorW.new.addList [5, 7]).count = 2 := by
  have h := c5_amended_count [5, 7] (by norm_num [u32Mod])
  simpa using h

/-- Claim C6: after adding exactly one value `v` to a fresh
`VarianceIncrementor`, `mean() = v`, `variance() = 0` and `count() = 1`,
exactly, for every value `v`. -/
theorem c6_single_value (v : ℚ) :
    (VarianceIncrementor.new.add v).mean = v ∧
    (VarianceIncrementor.new.add v).variance = 0 ∧
    (VarianceIncrementor.new.add v).count = 1 := by
  refine ⟨?_, ?_, ?_⟩ <;>
    simp [VarianceIncrementor.add, VarianceIncrementor.new, VarianceIncrementor.mean,
      VarianceIncrementor.count, MeanIncrementor.add, MeanIncrementor.new]

/-- Claim C7, counterexample: the claim says every panic branch, including
the `u32` overflow of `count += 1`, is unreachable for every sequence of
calls; but a sequence of `2^32` adds reaches the overflow (the checked
model returns `none`, i.e. the debug-mode panic fires). -/
theorem c7_counterexample :
    MeanIncrementor.new.addListChecked (List.replicate u32Mod (0 : ℚ)) = none := by
  refine meanIncr_addListChecked_none _ _ ?_ ?_
  · norm_num [MeanIncrementor.new, u32Mod]
  · simp [MeanIncrementor.new, List.length_replicate]

/-- Claim C7, amended: as long as fewer than `2^32` values are added, no
operation of either type fails — every overflow / underflow check passes
(in particular the unsigned subtraction `n - 1` never underflows, being
guarded by the `n == 0` branch) and the checked model agrees with the
unchecked one. -/
theorem c7_amended_no_failure (l : List ℚ) (h : l.length < u32Mod) :
    MeanIncrementor.new.addListChecked l = some (MeanIncrementor.new.addList l) ∧
    VarianceIncrementor.new.addListChecked l = some (VarianceIncrementor.new.addList l) := by
  constructor
  · exact meanIncr_addListChecked_eq l _
      (by simpa [MeanIncrementor.new] using h)
  · exact varIncr_addListChecked_eq l _
      (by simpa [VarianceIncrementor.new, MeanIncrementor.new] using h)

/-- Witness for the amended claim C7 at the concrete input `[1, 2]`. -/
theorem c7_amended_witness :
    MeanIncrementor.new.addListChecked [1, 2]
      = some (MeanIncrementor.new.addList [1, 2]) ∧
    VarianceIncrementor.new.addListChecked [1, 2]
      = some (VarianceIncrementor.new.addList [1, 2]) :=
  c7_amended_no_failure [1, 2] (by norm_num [u32Mod])

/-- Claim C8, counterexample: the claim says the incremental results match
the batch recompute-from-scratch formulas, and the spec's batch formula
for the variance is the population (divide-by-n) variance; but after
adding `0, 2` the code yields `2` while the batch population variance of
`{0, 2}` is `1`. -/
theorem c8_counterexample :
    (VarianceIncrementor.new.addList [0, 2]).variance ≠ popVariance [0, 2] := by
  have h1 : (VarianceIncrementor.new.addList [0, 2]).variance = 2 := by
    norm_num [VarianceIncrementor.addList, VarianceIncrementor.add, VarianceIncrementor.new,
      MeanIncrementor.add, MeanIncrementor.new, List.foldl]
  have h2 : popVariance [0, 2] = 1 := by
    norm_num [popVariance, batchMean]
  rw [h1, h2]
  norm_num

/-- Claim C8, amended: adding the same multiset of values in any two
orders yields the same final `mean()` and the same final `variance()` on
both accumulators (exact arithmetic); the incremental mean matches the
batch recompute-from-scratch mean, and the incremental variance matches
the batch recompute of the statistic the code computes — the sample
(divide-by-(n-1)) variance for two or more values, `0` otherwise — not
the batch population variance. -/
theorem c8_amended_perm_batch (l l2 : List ℚ) (hp : l.Perm l2) :
    (MeanIncrementor.new.addList l).mean = (MeanIncrementor.new.addList l2).mean ∧
    (VarianceIncrementor.new.addList l).mean = (VarianceIncrementor.new.addList l2).mean ∧
    (VarianceIncrementor.new.addList l).variance
      = (VarianceIncrementor.new.addList l2).variance ∧
    (MeanIncrementor.new.addList l).mean = batchMean l ∧
    (VarianceIncrementor.new.addList l).variance
      = (if l.length ≤ 1 then 0 else sampleVariance l) := by
  have hsum : l.sum = l2.sum := hp.sum_eq
  have hlen : l.length = l2.length := hp.length_eq
  have hsq : sumSq l = sumSq l2 := (hp.map (fun v => v ^ 2)).sum_eq
  refine ⟨?_, ?_, ?_, ?_, ?_⟩
  · rw [MeanIncrementor.mean_addList_new, MeanIncrementor.mean_addList_new, hsum, hlen]
  · rw [VarianceIncrementor.mean, VarianceIncrementor.mean,
      varIncr_mi_addList, varIncr_mi_addList]
    show (MeanIncrementor.new.addList l).mean = (MeanIncrementor.new.addList l2).mean
    rw [MeanIncrementor.mean_addList_new, MeanIncrementor.mean_addList_new, hsum, hlen]
  · rw [VarianceIncrementor.variance_addList_new, VarianceIncrementor.variance_addList_new,
      hsum, hlen, hsq]
  · rw [MeanIncrementor.mean_addList_new, batchMean]
  · exact variance_addList_sample l

/-- Witness for the amended claim C8 at the concrete permuted inputs
`[1, 2]` and `[2, 1]`. -/
theorem c8_witness :
    (MeanIncrementor.new.addList [1, 2]).mean = (MeanIncrementor.new.addList [2, 1]).mean ∧
    (VarianceIncrementor.new.addList [1, 2]).mean
      = (VarianceIncrementor.new.addList [2, 1]).mean ∧
    (VarianceIncrementor.new.addList [1, 2]).variance
      = (VarianceIncrementor.new.addList [2, 1]).variance ∧
    (MeanIncrementor.new.addList [1, 2]).mean = batchMean [1, 2] ∧
    (VarianceIncrementor.new.addList [1, 2]).variance
      = (if ([1, 2] : List ℚ).length ≤ 1 then 0 else sampleVariance [1, 2]) :=
  c8_amended_perm_batch [1, 2] [2, 1] (List.Perm.swap 2 1 [])

/-- Claim C9: for every sequence of at least two values added to a fresh
`VarianceIncrementor`, `variance()` equals the unbiased sample
(divide-by-(n-1), Bessel-corrected) variance of the values added so far,
in exact arithmetic. -/
theorem c9_variance_is_sample_variance (l : List ℚ) (h : 2 ≤ l.length) :
    (VarianceIncrementor.new.addList l).variance
      = (l.map (fun v => (v - batchMean l) ^ 2)).sum / ((l.length : ℚ) - 1) := by
  rw [VarianceIncrementor.variance_addList_new, sum_sq_dev_batchMean l (by omega)]

/-- Witness for claim C9 at the concrete input `[0, 1, 2]`, whose sample
variance is `1`. -/
theorem c9_witness :
    (VarianceIncrementor.new.addList [0, 1, 2]).variance
      = (([0, 1, 2] : List ℚ).map (fun v => (v - batchMean [0, 1, 2]) ^ 2)).sum
          / ((([0, 1, 2] : List ℚ).length : ℚ) - 1) :=
  c9_variance_is_sample_variance [0, 1, 2] (by norm_num)

/-- Claim C10: in exact arithmetic the variance is non-negative in every
reachable state: it is `0` initially, every `add` preserves
non-negativity, and hence every state reached from `new` by a sequence of
adds has non-negative variance. -/
theorem c10_variance_nonneg :
    VarianceIncrementor.new.variance = 0 ∧
    (∀ (s : VarianceIncrementor) (v : ℚ), 0 ≤ s.variance → 0 ≤ (s.add v).variance) ∧
    (∀ l : List ℚ, 0 ≤ (VarianceIncrementor.new.addList l).variance) := by
  have hstep : ∀ (s : VarianceIncrementor) (v : ℚ),
      0 ≤ s.variance → 0 ≤ (s.add v).variance := by
    intro s v hv
    simp only [VarianceIncrementor.add]
    by_cases h0 : s.mean_incrementor.count = 0
    · simp [h0]
    · rw [if_neg h0]
      have t1 : (0 : ℚ) ≤ ((s.mean_incrementor.count - 1 : ℕ) : ℚ)
          / (s.mean_incrementor.count : ℚ) * s.variance :=
        mul_nonneg (div_nonneg (Nat.cast_nonneg _) (Nat.cast_nonneg _)) hv
      have t2 : (0 : ℚ) ≤ (v - s.mean_incrementor.mean) ^ 2
          / ((s.mean_incrementor.count + 1 : ℕ) : ℚ) :=
        div_nonneg (sq_nonneg _) (Nat.cast_nonneg _)
      exact add_nonneg t1 t2
  refine ⟨rfl, hstep, ?_⟩
  intro l
  induction l using List.reverseRecOn with
  | nil => exact le_of_eq rfl
  | append_singleton t v ih =>
    rw [varIncr_addList_append]
    exact hstep _ v ih

/-- Witness for claim C10: concrete instance of the preservation step at
the fresh state and value `3`. -/
theorem c10_witness : 0 ≤ (VarianceIncrementor.new.add 3).variance :=
  c10_variance_nonneg.2.1 VarianceIncrementor.new 3 (le_of_eq c10_variance_nonneg.1.symm)
